import Mathlib

/-!
Verification of the shelvez library: a persistent compressed key-value
store (sqlite.py), a zstd compressor wrapper (zstd.py) and a memoization
cache decorator with a dual-tier design (sqlcache.py).

The Python code is shallowly embedded: each relevant Python function is
translated into an executable Lean definition.  External collaborators
(the zstandard compressor, the pickle serializer, the md5 digest and the
cachetools in-memory maps) are modelled as parameters carrying exactly
the contracts the library relies on (round-trip for compress/serialize,
injectivity for the digest where key distinctness is at stake).
-/

namespace Shelvez

/-- Model of Python values that flow through the cache: None, ints and
strings suffice for every behaviour under scrutiny. -/
inductive Val where
  | vNone : Val
  | vInt (n : Int) : Val
  | vStr (s : String) : Val
  deriving DecidableEq, Repr

/-- Abstract compressor, modelling zstd.ZstdCompressor: compress and
decompress over an abstract byte type B, with the library's round-trip
contract. -/
structure Compressor (B : Type) where
  compress : B → B
  decompress : B → B
  round_trip : ∀ b, decompress (compress b) = b

/-- Abstract serializer, modelling serialer.PickleSerializer: serialize
and unserialize with the round-trip contract. -/
structure Serializer (B : Type) where
  serialize : Val → B
  unserialize : B → Val
  round_trip : ∀ v, unserialize (serialize v) = v

/-- Identity compressor: a concrete instance used to instantiate
theorems at concrete inputs. -/
def idCompressor : Compressor Val where
  compress := id
  decompress := id
  round_trip := fun _ => rfl

/-- Identity serializer over B equal to Val. -/
def idSerializer : Serializer Val where
  serialize := id
  unserialize := id
  round_trip := fun _ => rfl

/-! ## Persistent store: sqlite.py _Database

The Dict table maps text keys to compressed blobs.  It is modelled as an
association list with unique keys; the connection handle self._cx is
modelled by a Boolean flag (true when open, None in Python becomes
false). -/

/-- Errors raised by the store: error(_ERR_CLOSED) when operating on a
closed handle, and KeyError for a missing key. -/
inductive DbError where
  | closed : DbError
  | keyError (key : String) : DbError
  deriving DecidableEq, Repr

/-- SELECT value FROM Dict WHERE key = ? on an association-list table. -/
def lookupKV {B : Type} (t : List (String × B)) (k : String) : Option B :=
  (t.find? (fun p => p.1 == k)).map Prod.snd

/-- REPLACE INTO Dict (key, value) VALUES (?, ?): insert-or-replace
keyed by the text key. -/
def storeKV {B : Type} (t : List (String × B)) (k : String) (v : B) :
    List (String × B) :=
  if t.any (fun p => p.1 == k) then
    t.map (fun p => if p.1 == k then (k, v) else p)
  else t ++ [(k, v)]

/-- State of sqlite.py _Database: connection flag, Dict table, the Zstd
table's single dict row, and the owned compressor. -/
structure Database (B : Type) where
  cx : Bool
  table : List (String × B)
  zstdDict : Option B
  compressor : Compressor B

/-- _Database.close: if self._cx, close it and set it to None. -/
def Database.close {B : Type} (db : Database B) : Database B :=
  { db with cx := false }

/-- _Database.__len__ through _execute: raises when closed. -/
def Database.length {B : Type} (db : Database B) : Except DbError Nat :=
  if db.cx then .ok db.table.length else .error .closed

/-- _Database.__getitem__: closed check, lookup, KeyError on a missing
row, decompress on a hit. -/
def Database.getItem {B : Type} (db : Database B) (key : String) :
    Except DbError B :=
  if db.cx then
    match lookupKV db.table key with
    | some v => .ok (db.compressor.decompress v)
    | none => .error (.keyError key)
  else .error .closed

/-- _Database.__setitem__: closed check, compress, insert-or-replace. -/
def Database.setItem {B : Type} (db : Database B) (key : String) (value : B) :
    Except DbError (Database B) :=
  if db.cx then
    .ok { db with table := storeKV db.table key (db.compressor.compress value) }
  else .error .closed

/-- _Database.__delitem__: closed check, KeyError when the key is
absent, otherwise remove the row. -/
def Database.delItem {B : Type} (db : Database B) (key : String) :
    Except DbError (Database B) :=
  if db.cx then
    if db.table.any (fun p => p.1 == key) then
      .ok { db with table := db.table.filter (fun p => p.1 != key) }
    else .error (.keyError key)
  else .error .closed

/-- _Database.__iter__: closed check, then the list of keys. -/
def Database.iterKeys {B : Type} (db : Database B) : Except DbError (List String) :=
  if db.cx then .ok (db.table.map Prod.fst) else .error .closed

/-- _Database.optimize_database: collect all decompressed values as
samples, train a new dictionary, rebuild the compressor, re-store every
record under it, persist the dictionary and vacuum.  The external
zstd training and compressor construction are the parameters train and
mkComp. -/
def Database.optimize {B : Type} (db : Database B)
    (train : List B → B) (mkComp : B → Compressor B) :
    Except DbError (Database B) :=
  if db.cx then
    let rows := db.table.map (fun p => (p.1, db.compressor.decompress p.2))
    let newDict := train (rows.map Prod.snd)
    let comp := mkComp newDict
    let newTable := rows.foldl (fun t p => storeKV t p.1 (comp.compress p.2)) db.table
    .ok { db with table := newTable, zstdDict := some newDict, compressor := comp }
  else .error .closed

/-! ## Compressor training: zstd.py ZstdCompressor.optimize_dict

Only the dictionary-size computation is library-local arithmetic; the
training itself is the external zstd.train_dictionary call. -/

/-- The dict_size computation of ZstdCompressor.optimize_dict:
total_size // 100 with a floor of 256 and a cap of 109000. -/
def optimize_dict_size (samples : List (List Nat)) : Nat :=
  let total_size := (samples.map List.length).sum
  let d1 := max (total_size / 100) 256
  min d1 109000

/-! ## Eviction-aware cache store: sqlcache.py _SqlCacheDatabase

The cache table holds (key, value, created_at, access_count,
last_access) rows with a unique text key.  Timestamps are rationals
standing for the REAL column type. -/

/-- One row of the cache table. -/
structure CacheRow (B : Type) where
  key : String
  value : B
  created_at : ℚ
  access_count : Int
  last_access : ℚ
  deriving DecidableEq, Repr

/-- Python truthiness of the optional ttl argument: None and 0 are
falsy, everything else truthy. -/
def ttlTruthy : Option ℚ → Bool
  | none => false
  | some t => t != 0

/-- The SELECT step of _SqlCacheDatabase.get: with a truthy ttl the
query filters by key = ? AND created_at > now - ttl, otherwise by the
key alone. -/
def dbSelect {B : Type} (t : List (CacheRow B)) (key : String)
    (ttl : Option ℚ) (now : ℚ) : Option (CacheRow B) :=
  if ttlTruthy ttl then
    t.find? (fun r => r.key == key && decide (now - ttl.getD 0 < r.created_at))
  else
    t.find? (fun r => r.key == key)

/-- The UPDATE step of _SqlCacheDatabase.get on a hit: increment
access_count and refresh last_access for the matching key. -/
def touchRow {B : Type} (t : List (CacheRow B)) (key : String) (now : ℚ) :
    List (CacheRow B) :=
  t.map (fun r =>
    if r.key == key then
      { r with access_count := r.access_count + 1, last_access := now }
    else r)

/-- The INSERT OR REPLACE of _SqlCacheDatabase.set: a fresh row with
created_at = last_access = now and access_count = 1 replaces any row
with the same key. -/
def storeRow {B : Type} (t : List (CacheRow B)) (key : String) (value : B)
    (now : ℚ) : List (CacheRow B) :=
  if t.any (fun r => r.key == key) then
    t.map (fun r => if r.key == key then
      { key := key, value := value, created_at := now,
        access_count := 1, last_access := now } else r)
  else t ++ [{ key := key, value := value, created_at := now,
               access_count := 1, last_access := now }]

/-- _SqlCacheDatabase.cleanup_expired: delete every row with
created_at < now - ttl. -/
def cleanup_expired {B : Type} (t : List (CacheRow B)) (ttl : ℚ) (now : ℚ) :
    List (CacheRow B) :=
  t.filter (fun r => !(decide (r.created_at < now - ttl)))

/-- The ORDER BY last_access ASC comparison. -/
def rowLE {B : Type} (a b : CacheRow B) : Prop := a.last_access ≤ b.last_access

instance {B : Type} : DecidableRel (rowLE (B := B)) :=
  fun a b => inferInstanceAs (Decidable (a.last_access ≤ b.last_access))

instance {B : Type} : IsTotal (CacheRow B) rowLE :=
  ⟨fun a b => le_total a.last_access b.last_access⟩

instance {B : Type} : IsTrans (CacheRow B) rowLE :=
  ⟨fun _ _ _ hab hbc => le_trans hab hbc⟩

/-- _SqlCacheDatabase.cleanup_lru: when the row count exceeds max_size,
delete the rows whose keys come first in last_access-ascending order
(SELECT key FROM cache ORDER BY last_access ASC LIMIT excess), so that
max_size rows remain. -/
def cleanup_lru {B : Type} (t : List (CacheRow B)) (max_size : Nat) :
    List (CacheRow B) :=
  if t.length > max_size then
    let excess := t.length - max_size
    let sorted := t.insertionSort rowLE
    let victims := (sorted.take excess).map (fun r => r.key)
    t.filter (fun r => !(victims.contains r.key))
  else t

/-! ## Cache-key derivation: _SqlCacheDatabase._generate_key

key_data = (func_name, args, tuple(sorted(kwargs.items()))) is pickled
and md5-hexdigested.  Python's sorted on the items of a dict (whose
keys are unique) orders by the string key.  The pickle+md5 composition
is the digest parameter. -/

/-- The data hashed into a cache key. -/
def KeyData : Type := String × List Val × List (String × Val)

/-- The comparison Python's sorted uses on the items of a dict with
unique keys: the string keys decide the order. -/
def kwLE (a b : String × Val) : Prop := a.1 ≤ b.1

instance : DecidableRel kwLE := fun a b => inferInstanceAs (Decidable (a.1 ≤ b.1))

instance : IsTotal (String × Val) kwLE := ⟨fun a b => le_total a.1 b.1⟩

instance : IsTrans (String × Val) kwLE := ⟨fun _ _ _ hab hbc => le_trans hab hbc⟩

/-- tuple(sorted(kwargs.items())): sort the keyword items by their
string key. -/
def sortKwargs (kwargs : List (String × Val)) : List (String × Val) :=
  kwargs.insertionSort kwLE

/-- _SqlCacheDatabase._generate_key with the pickle+md5 composition
abstracted as digest. -/
def generate_key {K : Type} (digest : KeyData → K) (func_name : String)
    (args : List Val) (kwargs : List (String × Val)) : K :=
  digest (func_name, args, sortKwargs kwargs)

/-! ## Memoization engine: sqlcache.py SqlCache -/

/-- Configuration of a SqlCache instance as fixed by SqlCache.__init__:
max_size, the optional ttl, and the lower-cased cache_type string. -/
structure SqlCacheCfg where
  max_size : Nat
  ttl : Option ℚ
  cache_type : String
  deriving DecidableEq, Repr

/-- ASCII lower-casing of one character, as Python str.lower acts on
the ASCII policy names at stake here. -/
def charLower (c : Char) : Char :=
  if 65 ≤ c.toNat ∧ c.toNat ≤ 90 then Char.ofNat (c.toNat + 32) else c

/-- Python str.lower restricted to ASCII strings. -/
def pyLower (s : String) : String :=
  ⟨s.data.map charLower⟩

/-- SqlCache.__init__ validation: cache_type.lower() must be ttl or
lru, otherwise a ValueError is raised (modelled as none). -/
def mkSqlCacheCfg (max_size : Nat) (ttl : Option ℚ) (cache_type : String) :
    Option SqlCacheCfg :=
  let ct := pyLower cache_type
  if ct = "ttl" ∨ ct = "lru" then
    some { max_size := max_size, ttl := ttl, cache_type := ct }
  else none

/-- The two sweeps SqlCache._cleanup can run. -/
inductive CleanupAction where
  | expired (ttl : ℚ) : CleanupAction
  | lruSweep (max_size : Nat) : CleanupAction
  deriving DecidableEq, Repr

/-- SqlCache._cleanup dispatch: cleanup_expired(self.ttl) when
cache_type == "ttl" and self.ttl is truthy, otherwise
cleanup_lru(self.max_size). -/
def cleanupAction (cfg : SqlCacheCfg) : CleanupAction :=
  if cfg.cache_type = "ttl" ∧ ttlTruthy cfg.ttl then
    .expired (cfg.ttl.getD 0)
  else
    .lruSweep cfg.max_size

/-- Run the selected cleanup sweep on the cache table. -/
def applyCleanup {B : Type} (cfg : SqlCacheCfg) (t : List (CacheRow B))
    (now : ℚ) : List (CacheRow B) :=
  match cleanupAction cfg with
  | .expired ttl => cleanup_expired t ttl now
  | .lruSweep m => cleanup_lru t m

/-- State of the _SqlCacheDatabase disk tier: the underlying _Database
connection flag plus the cache table. -/
structure CacheDb (B : Type) where
  cx : Bool
  table : List (CacheRow B)
  deriving DecidableEq, Repr

/-- _SqlCacheDatabase.get: every statement goes through _execute, which
raises SqlCacheError when the underlying handle is closed.  On a row
hit the access info is updated and the value decompressed and
unserialized; on a miss the Python function returns None (Val.vNone). -/
def cacheDbGet {B : Type} (ser : Serializer B) (comp : Compressor B)
    (d : CacheDb B) (key : String) (ttl : Option ℚ) (now : ℚ) :
    Except Unit (Val × CacheDb B) :=
  if d.cx then
    match dbSelect d.table key ttl now with
    | some row =>
        .ok (ser.unserialize (comp.decompress row.value),
             { d with table := touchRow d.table key now })
    | none => .ok (Val.vNone, d)
  else .error ()

/-- _SqlCacheDatabase.set: serialize, compress, insert-or-replace;
raises SqlCacheError when the handle is closed. -/
def cacheDbSet {B : Type} (ser : Serializer B) (comp : Compressor B)
    (d : CacheDb B) (key : String) (value : Val) (now : ℚ) :
    Except Unit (CacheDb B) :=
  if d.cx then
    .ok { d with table := storeRow d.table key (comp.compress (ser.serialize value)) now }
  else .error ()

/-- Abstract in-memory tier, modelling the cachetools TTLCache or
LRUCache the engine owns: a membership lookup and an insert.  Their
eviction behaviour is external to the library. -/
structure MemTier (M : Type) where
  lookup : M → String → Option Val
  insert : M → String → Val → M

/-- A concrete association-list memory tier used to instantiate
theorems at concrete inputs. -/
def listMemTier : MemTier (List (String × Val)) where
  lookup := fun m k => (m.find? (fun p => p.1 == k)).map Prod.snd
  insert := fun m k v => (k, v) :: m.filter (fun p => p.1 != k)

/-- What a call through the decorated function can produce: a normal
value, an exception raised by the wrapped function, or a SqlCacheError
raised by the disk tier. -/
inductive CallOutcome where
  | value (v : Val) : CallOutcome
  | funcExc (e : Val) : CallOutcome
  | sqlCacheError : CallOutcome
  deriving DecidableEq, Repr

/-- Result of one call through the wrapper: the outcome, the new memory
tier, the new disk tier, and whether the wrapped function was
executed. -/
structure CallResult (M B : Type) where
  outcome : CallOutcome
  mem : M
  db : CacheDb B
  executed : Bool

/-- SqlCache.__call__.wrapper, one call: derive the key; return a
memory hit; otherwise consult the disk tier with the configured ttl; a
non-None cached value populates the memory tier and is returned; on a
total miss run the function (an exception propagates and caches
nothing), write the disk tier, write the memory tier, run the cleanup
policy and return the result. -/
def wrapper {M B K : Type} (digest : KeyData → K) (keyStr : K → String)
    (mt : MemTier M) (ser : Serializer B) (comp : Compressor B)
    (cfg : SqlCacheCfg) (f : List Val → List (String × Val) → Except Val Val)
    (func_name : String) (now : ℚ) (mem : M) (d : CacheDb B)
    (args : List Val) (kwargs : List (String × Val)) : CallResult M B :=
  let cache_key := keyStr (generate_key digest func_name args kwargs)
  match mt.lookup mem cache_key with
  | some v => ⟨.value v, mem, d, false⟩
  | none =>
    match cacheDbGet ser comp d cache_key cfg.ttl now with
    | .error _ => ⟨.sqlCacheError, mem, d, false⟩
    | .ok (cached, d1) =>
      if cached ≠ Val.vNone then
        ⟨.value cached, mt.insert mem cache_key cached, d1, false⟩
      else
        match f args kwargs with
        | .error e => ⟨.funcExc e, mem, d1, true⟩
        | .ok result =>
          match cacheDbSet ser comp d1 cache_key result now with
          | .error _ => ⟨.sqlCacheError, mem, d1, true⟩
          | .ok d2 =>
            let mem2 := mt.insert mem cache_key result
            let d3 := { d2 with table := applyCleanup cfg d2.table now }
            ⟨.value result, mem2, d3, true⟩

/-- SqlCache.close: close the underlying database handle.  There is no
reconnection logic anywhere in the engine. -/
def cacheClose {B : Type} (d : CacheDb B) : CacheDb B :=
  { d with cx := false }

/-! ## Theorems -/

/-- C9: for every sample corpus, the dictionary-training operation
computes its target dictionary size as the total byte length of all
samples divided by 100 (floor division), clamped below at 256 and above
at 109000: the result always lies in the interval 256..109000, equals
the quotient when the quotient lies in that interval, and hits the
respective bound when the quotient falls outside it. -/
theorem optimize_dict_size_clamp (samples : List (List Nat)) :
    256 ≤ optimize_dict_size samples ∧
    optimize_dict_size samples ≤ 109000 ∧
    (256 ≤ (samples.map List.length).sum / 100 →
      (samples.map List.length).sum / 100 ≤ 109000 →
      optimize_dict_size samples = (samples.map List.length).sum / 100) ∧
    ((samples.map List.length).sum / 100 ≤ 256 →
      optimize_dict_size samples = 256) ∧
    (109000 ≤ (samples.map List.length).sum / 100 →
      optimize_dict_size samples = 109000) := by
  unfold optimize_dict_size
  refine ⟨?_, ?_, ?_, ?_, ?_⟩ <;> simp only [] <;> omega

/-- Witness for C9 at the empty corpus: the quotient 0 is below the
floor, so the size is clamped to 256. -/
theorem optimize_dict_size_clamp_witness : optimize_dict_size [] = 256 := by
  have h := optimize_dict_size_clamp []
  exact h.2.2.2.1 (by decide)

/-- C8: for every persistent store, close is idempotent, and every
store operation (get, set, delete, len, iterate) invoked on a closed
store signals the closed-handle error. -/
theorem close_idempotent_ops_closed {B : Type} (db : Database B)
    (key : String) (v : B) :
    (db.close).close = db.close ∧
    (db.close).getItem key = .error .closed ∧
    (db.close).setItem key v = .error .closed ∧
    (db.close).delItem key = .error .closed ∧
    (db.close).length = .error .closed ∧
    (db.close).iterKeys = .error .closed := by
  refine ⟨rfl, ?_, ?_, ?_, ?_, ?_⟩ <;>
    simp [Database.close, Database.getItem, Database.setItem,
      Database.delItem, Database.length, Database.iterKeys]

/-- C1 counterexample: an engine constructed with policy "ttl" but the
default ttl of None runs the LRU sweep, not cleanup_expired, so the
cleanup step is not determined by the policy string alone. -/
theorem ttl_instance_runs_lru_sweep :
    mkSqlCacheCfg 1000 none "ttl"
      = some { max_size := 1000, ttl := none, cache_type := "ttl" } ∧
    cleanupAction { max_size := 1000, ttl := none, cache_type := "ttl" }
      = .lruSweep 1000 := by
  constructor
  · rfl
  · rfl

/-- C1 amended: the cleanup step run after a disk write is determined
by the policy together with the ttl setting, both fixed at
construction: "lru" runs cleanup_lru(max_size); "ttl" with a truthy
(set and nonzero) ttl runs cleanup_expired(ttl); "ttl" with ttl None
or 0 runs cleanup_lru(max_size). -/
theorem cleanup_policy_selection (max_size : Nat) (ttl : Option ℚ)
    (ct : String) (cfg : SqlCacheCfg)
    (h : mkSqlCacheCfg max_size ttl ct = some cfg) :
    (cfg.cache_type = "lru" → cleanupAction cfg = .lruSweep max_size) ∧
    (∀ t : ℚ, cfg.cache_type = "ttl" → cfg.ttl = some t → t ≠ 0 →
      cleanupAction cfg = .expired t) ∧
    (cfg.cache_type = "ttl" → (cfg.ttl = none ∨ cfg.ttl = some 0) →
      cleanupAction cfg = .lruSweep max_size) := by
  simp only [mkSqlCacheCfg] at h
  split at h
  · cases h
    refine ⟨?_, ?_, ?_⟩
    · intro hlru
      simp only at hlru
      simp [cleanupAction, hlru]
    · intro t httl hsome hne
      simp only at httl hsome
      simp [cleanupAction, httl, hsome, ttlTruthy, hne]
    · intro httl hcase
      simp only at httl hcase
      rcases hcase with hc | hc <;>
        simp [cleanupAction, httl, hc, ttlTruthy]
  · cases h

/-- Witness for C1 amended: a "ttl" engine with ttl 10 runs
cleanup_expired(10); an "lru" engine runs cleanup_lru. -/
theorem cleanup_policy_selection_witness :
    cleanupAction { max_size := 5, ttl := some 10, cache_type := "ttl" }
      = .expired 10 ∧
    cleanupAction { max_size := 5, ttl := some 10, cache_type := "lru" }
      = .lruSweep 5 := by
  constructor
  · exact (cleanup_policy_selection 5 (some 10) "ttl"
      { max_size := 5, ttl := some 10, cache_type := "ttl" } rfl).2.1 10 rfl rfl
      (by norm_num)
  · exact (cleanup_policy_selection 5 (some 10) "lru"
      { max_size := 5, ttl := some 10, cache_type := "lru" } rfl).1 rfl

/-- Sorting keyword items by their unique string keys is invariant
under reordering: two permutations of the same keyword items with
duplicate-free keys sort to the same list. -/
theorem sortKwargs_perm_eq (kw1 kw2 : List (String × Val))
    (hperm : kw1.Perm kw2) (hnd : (kw1.map Prod.fst).Nodup) :
    sortKwargs kw1 = sortKwargs kw2 := by
  classical
  have hp1 : (kw1.insertionSort kwLE).Perm kw1 := List.perm_insertionSort kwLE kw1
  have hp2 : (kw2.insertionSort kwLE).Perm kw2 := List.perm_insertionSort kwLE kw2
  have hs1 : List.Sorted kwLE (kw1.insertionSort kwLE) :=
    List.sorted_insertionSort kwLE kw1
  have hs2 : List.Sorted kwLE (kw2.insertionSort kwLE) :=
    List.sorted_insertionSort kwLE kw2
  have hnd1 : ((kw1.insertionSort kwLE).map Prod.fst).Nodup :=
    ((hp1.map Prod.fst).nodup_iff).mpr hnd
  have hnd2 : ((kw2.insertionSort kwLE).map Prod.fst).Nodup :=
    ((hp2.map Prod.fst).nodup_iff).mpr ((hperm.map Prod.fst).nodup_iff.mp hnd)
  have hkeyne1 : (kw1.insertionSort kwLE).Pairwise (fun a b => a.1 ≠ b.1) :=
    (List.pairwise_map.mp hnd1)
  have hkeyne2 : (kw2.insertionSort kwLE).Pairwise (fun a b => a.1 ≠ b.1) :=
    (List.pairwise_map.mp hnd2)
  have hstrict1 : List.Sorted (fun a b : String × Val => a.1 < b.1)
      (kw1.insertionSort kwLE) :=
    (hs1.and hkeyne1).imp (fun h => lt_of_le_of_ne h.1 h.2)
  have hstrict2 : List.Sorted (fun a b : String × Val => a.1 < b.1)
      (kw2.insertionSort kwLE) :=
    (hs2.and hkeyne2).imp (fun h => lt_of_le_of_ne h.1 h.2)
  haveI : IsAntisymm (String × Val) (fun a b => a.1 < b.1) :=
    ⟨fun a b h1 h2 => absurd (h1.trans h2) (lt_irrefl _)⟩
  have hperm12 : (kw1.insertionSort kwLE).Perm (kw2.insertionSort kwLE) :=
    (hp1.trans hperm).trans hp2.symm
  exact List.eq_of_perm_of_sorted hperm12 hstrict1 hstrict2

/-- C4: cache-key derivation is a pure function of the function name,
the positional args and the keyword args sorted by name: any two
orderings of the same keyword arguments (with their duplicate-free
keys) give the same key regardless of the digest, and under an
injective digest the key differs for different positional arguments
and for different function names. -/
theorem generate_key_stable {K : Type} (digest : KeyData → K)
    (hinj : Function.Injective digest)
    (f g : String) (args args2 : List Val)
    (kw1 kw2 kw3 : List (String × Val))
    (hperm : kw1.Perm kw2) (hnd : (kw1.map Prod.fst).Nodup) :
    generate_key digest f args kw1 = generate_key digest f args kw2 ∧
    (args ≠ args2 →
      generate_key digest f args kw1 ≠ generate_key digest f args2 kw3) ∧
    (f ≠ g →
      generate_key digest f args kw1 ≠ generate_key digest g args2 kw3) := by
  refine ⟨?_, ?_, ?_⟩
  · unfold generate_key
    rw [sortKwargs_perm_eq kw1 kw2 hperm hnd]
  · intro hne heq
    have h2 := hinj heq
    exact hne (congrArg (fun p : KeyData => p.2.1) h2)
  · intro hne heq
    have h2 := hinj heq
    exact hne (congrArg (fun p : KeyData => p.1) h2)

/-- Witness for C4 at the digest given by the identity on the key
data, the function names f and g, and the keyword items a=1, b=2 in
both orders. -/
theorem generate_key_stable_witness :
    generate_key (fun kd : KeyData => kd) "f" [Val.vInt 1, Val.vInt 2]
        [("a", Val.vInt 1), ("b", Val.vInt 2)]
      = generate_key (fun kd : KeyData => kd) "f" [Val.vInt 1, Val.vInt 2]
        [("b", Val.vInt 2), ("a", Val.vInt 1)] ∧
    generate_key (fun kd : KeyData => kd) "f" [Val.vInt 1, Val.vInt 2]
        [("a", Val.vInt 1), ("b", Val.vInt 2)]
      ≠ generate_key (fun kd : KeyData => kd) "f" [Val.vInt 1, Val.vInt 3]
        [("a", Val.vInt 1), ("b", Val.vInt 2)] ∧
    generate_key (fun kd : KeyData => kd) "f" [Val.vInt 1, Val.vInt 2]
        [("a", Val.vInt 1), ("b", Val.vInt 2)]
      ≠ generate_key (fun kd : KeyData => kd) "g" [Val.vInt 1, Val.vInt 2]
        [("a", Val.vInt 1), ("b", Val.vInt 2)] := by
  have h := generate_key_stable (fun kd : KeyData => kd)
    (fun a b hab => hab) "f" "g" [Val.vInt 1, Val.vInt 2] [Val.vInt 1, Val.vInt 3]
    [("a", Val.vInt 1), ("b", Val.vInt 2)] [("b", Val.vInt 2), ("a", Val.vInt 1)]
    [("a", Val.vInt 1), ("b", Val.vInt 2)]
    (List.Perm.swap _ _ _) (by decide)
  have h2 := generate_key_stable (fun kd : KeyData => kd)
    (fun a b hab => hab) "f" "g" [Val.vInt 1, Val.vInt 2] [Val.vInt 1, Val.vInt 2]
    [("a", Val.vInt 1), ("b", Val.vInt 2)] [("b", Val.vInt 2), ("a", Val.vInt 1)]
    [("a", Val.vInt 1), ("b", Val.vInt 2)]
    (List.Perm.swap _ _ _) (by decide)
  exact ⟨h.1, h.2.1 (by decide), h2.2.2 (by decide)⟩

/-- In a table with duplicate-free keys, the key-only SELECT finds
exactly the row holding the key. -/
theorem find_key_unique {B : Type} (t : List (CacheRow B)) (r : CacheRow B)
    (hnd : (t.map CacheRow.key).Nodup) (hr : r ∈ t) :
    t.find? (fun x => x.key == r.key) = some r := by
  induction t with
  | nil => cases hr
  | cons a tl ih =>
    rw [List.map_cons, List.nodup_cons] at hnd
    cases hr with
    | head => simp [List.find?]
    | tail _ hr =>
      have hne : (a.key == r.key) = false := by
        rw [beq_eq_false_iff_ne]
        intro hk
        exact hnd.1 (hk ▸ List.mem_map_of_mem CacheRow.key hr)
      rw [List.find?, hne]
      exact ih hnd.2 hr

/-- C5: for a row stored in the cache table (with duplicate-free
keys), the SELECT step of get with a positive ttl succeeds exactly
when the row's creation time is more recent than now - ttl, while the
SELECT without a ttl finds the row regardless of its age. -/
theorem get_ttl_filter {B : Type} (t : List (CacheRow B)) (key : String)
    (r : CacheRow B) (ttl now : ℚ)
    (hnd : (t.map CacheRow.key).Nodup) (hr : r ∈ t) (hk : r.key = key)
    (hpos : 0 < ttl) :
    ((dbSelect t key (some ttl) now).isSome ↔ now - ttl < r.created_at) ∧
    dbSelect t key none now = some r := by
  subst hk
  have htruthy : ttlTruthy (some ttl) = true := by
    simp [ttlTruthy, ne_of_gt hpos]
  constructor
  · unfold dbSelect
    rw [htruthy]
    simp only [if_true, List.find?_isSome]
    constructor
    · rintro ⟨x, hxmem, hxp⟩
      rw [Bool.and_eq_true, beq_iff_eq, decide_eq_true_eq] at hxp
      have hxr : x = r := List.inj_on_of_nodup_map hnd hxmem hr hxp.1
      subst hxr
      simpa using hxp.2
    · intro hfresh
      refine ⟨r, hr, ?_⟩
      rw [Bool.and_eq_true, beq_iff_eq, decide_eq_true_eq]
      exact ⟨rfl, by simpa using hfresh⟩
  · unfold dbSelect
    simp only [ttlTruthy, Bool.false_eq_true, if_false]
    exact find_key_unique t r hnd hr

/-- A sample cache row used to instantiate theorems at concrete
inputs. -/
def sampleRow : CacheRow Val :=
  { key := "k", value := Val.vInt 7, created_at := 0,
    access_count := 1, last_access := 0 }

/-- Witness for C5: a one-row table created at time 0; at now = 5 a
ttl of 10 finds the row, and the key-only SELECT finds it too. -/
theorem get_ttl_filter_witness :
    ((dbSelect [sampleRow] "k" (some 10) 5).isSome ↔ (5 : ℚ) - 10 < 0) ∧
    dbSelect [sampleRow] "k" none 5 = some sampleRow := by
  have h := get_ttl_filter [sampleRow] "k" sampleRow 10 5
    (by simp) (by simp) rfl (by norm_num)
  simpa [sampleRow] using h

/-- C6: for every cache-table state with duplicate-free keys and
distinct last_access stamps, and positive max_size, cleanup_lru leaves
the table unchanged when the row count is at most max_size, and
otherwise keeps exactly max_size rows, all drawn from the table, such
that every deleted row was accessed strictly earlier than every
retained row. -/
theorem cleanup_lru_spec {B : Type} (t : List (CacheRow B)) (max_size : Nat)
    (hpos : 0 < max_size)
    (hndk : (t.map CacheRow.key).Nodup)
    (hnda : (t.map CacheRow.last_access).Nodup) :
    (t.length ≤ max_size → cleanup_lru t max_size = t) ∧
    (max_size < t.length →
      (cleanup_lru t max_size).length = max_size ∧
      (∀ r ∈ cleanup_lru t max_size, r ∈ t) ∧
      (∀ r ∈ cleanup_lru t max_size, ∀ q ∈ t, q ∉ cleanup_lru t max_size →
        q.last_access < r.last_access)) := by
  constructor
  · intro hle
    unfold cleanup_lru
    rw [if_neg (by omega)]
  · intro hgt
    have hcond : t.length > max_size := hgt
    set s := t.insertionSort rowLE with hs
    have hperm : s.Perm t := List.perm_insertionSort rowLE t
    have hsort : List.Pairwise rowLE s := List.sorted_insertionSort rowLE t
    set excess := t.length - max_size with hexcess
    set victims := (s.take excess).map (fun r => r.key) with hvict
    set p : CacheRow B → Bool := fun r => !(victims.contains r.key) with hp
    have hcleanup : cleanup_lru t max_size = t.filter p := by
      unfold cleanup_lru
      rw [if_pos hcond]
    have hndk_s : (s.map CacheRow.key).Nodup :=
      (hperm.map CacheRow.key).nodup_iff.mpr hndk
    have hnda_s : (s.map CacheRow.last_access).Nodup :=
      (hperm.map CacheRow.last_access).nodup_iff.mpr hnda
    have hsplit : s.take excess ++ s.drop excess = s := List.take_append_drop excess s
    have hdisjk : List.Disjoint ((s.take excess).map CacheRow.key)
        ((s.drop excess).map CacheRow.key) := by
      apply List.disjoint_of_nodup_append
      rw [← List.map_append, hsplit]
      exact hndk_s
    have hdisja : List.Disjoint ((s.take excess).map CacheRow.last_access)
        ((s.drop excess).map CacheRow.last_access) := by
      apply List.disjoint_of_nodup_append
      rw [← List.map_append, hsplit]
      exact hnda_s
    have hA : ∀ a ∈ s.take excess, p a = false := by
      intro a ha
      have hmem : a.key ∈ victims := by
        rw [hvict]
        exact List.mem_map_of_mem (fun r => r.key) ha
      simp [hp, hmem]
    have hB : ∀ b ∈ s.drop excess, p b = true := by
      intro b hb
      have hnotin : b.key ∉ victims := by
        intro hmem
        rw [hvict] at hmem
        obtain ⟨a, ha, hak⟩ := List.mem_map.mp hmem
        exact hdisjk (hak ▸ List.mem_map_of_mem CacheRow.key ha)
          (List.mem_map_of_mem CacheRow.key hb)
      simp [hp, hnotin]
    have hfs : s.filter p = s.drop excess := by
      conv_lhs => rw [← hsplit]
      rw [List.filter_append,
        List.filter_eq_nil_iff.mpr (fun a ha => by simp [hA a ha]),
        List.filter_eq_self.mpr hB, List.nil_append]
    have hpf : (t.filter p).Perm (s.drop excess) := by
      rw [← hfs]
      exact (hperm.filter p).symm
    refine ⟨?_, ?_, ?_⟩
    · rw [hcleanup, hpf.length_eq, List.length_drop, hperm.length_eq]
      omega
    · intro r hr
      rw [hcleanup] at hr
      exact List.mem_of_mem_filter hr
    · intro r hr q hq hqnot
      rw [hcleanup] at hr hqnot
      have hpr : p r = true := List.of_mem_filter hr
      have hrs : r ∈ s := hperm.mem_iff.mpr (List.mem_of_mem_filter hr)
      have hrdrop : r ∈ s.drop excess := by
        rw [← hsplit] at hrs
        rcases List.mem_append.mp hrs with h1 | h2
        · rw [hA r h1] at hpr
          cases hpr
        · exact h2
      have hpq : p q = false := by
        cases hcase : p q
        · rfl
        · exact absurd (List.mem_filter.mpr ⟨hq, hcase⟩) hqnot
      have hqs : q ∈ s := hperm.mem_iff.mpr hq
      have hqtake : q ∈ s.take excess := by
        rw [← hsplit] at hqs
        rcases List.mem_append.mp hqs with h1 | h2
        · exact h1
        · rw [hB q h2] at hpq
          cases hpq
      have hle : q.last_access ≤ r.last_access := by
        rw [← hsplit] at hsort
        exact (List.pairwise_append.mp hsort).2.2 q hqtake r hrdrop
      have hne : q.last_access ≠ r.last_access := by
        intro heq
        exact hdisja (List.mem_map_of_mem CacheRow.last_access hqtake)
          (heq.symm ▸ List.mem_map_of_mem CacheRow.last_access hrdrop)
      exact lt_of_le_of_ne hle hne

/-- Witness for C6: three rows with max_size 2; the row with the
oldest last_access is deleted, the two most recently accessed rows
remain. -/
theorem cleanup_lru_spec_witness :
    (cleanup_lru ([sampleRow] : List (CacheRow Val)) 2).length = 1 ∧
    (cleanup_lru
      [sampleRow,
       { sampleRow with key := "k2", last_access := 1 },
       { sampleRow with key := "k3", last_access := 2 }] 2).length = 2 := by
  have h1 := cleanup_lru_spec ([sampleRow] : List (CacheRow Val)) 2
    (by norm_num) (by simp) (by simp)
  have h2 := cleanup_lru_spec
    [sampleRow,
     { sampleRow with key := "k2", last_access := 1 },
     { sampleRow with key := "k3", last_access := 2 }] 2
    (by norm_num) (by simp [sampleRow]) (by simp [sampleRow])
  constructor
  · rw [h1.1 (by simp)]
    simp
  · exact (h2.2 (by simp)).1

/-- Replacing the row of key k makes the key-k lookup find the new
pair, provided some row held the key. -/
theorem find_replace_self {B : Type} (k : String) (v : B) :
    ∀ t : List (String × B), t.any (fun p => p.1 == k) = true →
      (t.map (fun p => if p.1 == k then (k, v) else p)).find?
        (fun p => p.1 == k) = some (k, v)
  | [], h => by cases h
  | a :: tl, h => by
    by_cases hk : (a.1 == k) = true
    · rw [List.map_cons, if_pos hk, List.find?_cons_of_pos _ (by simp)]
    · rw [List.map_cons, if_neg hk, List.find?_cons_of_neg _ (by simpa using hk)]
      apply find_replace_self k v tl
      rw [List.any_cons, Bool.or_eq_true] at h
      rcases h with h | h
      · exact absurd h hk
      · exact h

/-- Replacing the row of key k leaves lookups of other keys
unchanged. -/
theorem find_replace_other {B : Type} (k q : String) (v : B) (hne : q ≠ k) :
    ∀ t : List (String × B),
      (t.map (fun p => if p.1 == k then (k, v) else p)).find?
        (fun p => p.1 == q) = t.find? (fun p => p.1 == q)
  | [] => rfl
  | a :: tl => by
    by_cases hk : (a.1 == k) = true
    · have h1 : ¬((((k, v) : String × B)).1 == q) = true := by
        simp only [beq_iff_eq]
        exact fun h => hne h.symm
      have h2 : ¬((a.1 == q) = true) := by
        simp only [beq_iff_eq]
        intro h
        exact hne (h ▸ (beq_iff_eq.mp hk))
      rw [List.map_cons, if_pos hk,
        List.find?_cons_of_neg _ (by exact h1),
        List.find?_cons_of_neg _ (by exact h2)]
      exact find_replace_other k q v hne tl
    · by_cases haq : (a.1 == q) = true
      · rw [List.map_cons, if_neg hk,
          List.find?_cons_of_pos _ (by exact haq),
          List.find?_cons_of_pos _ (by exact haq)]
      · rw [List.map_cons, if_neg hk,
          List.find?_cons_of_neg _ (by exact haq),
          List.find?_cons_of_neg _ (by exact haq)]
        exact find_replace_other k q v hne tl

/-- Appending a fresh row of key k makes the key-k lookup find it,
provided no existing row held the key. -/
theorem find_append_single_self {B : Type} (k : String) (v : B) :
    ∀ t : List (String × B), t.any (fun p => p.1 == k) = false →
      (t ++ [(k, v)]).find? (fun p => p.1 == k) = some (k, v)
  | [], _ => by simp [List.find?]
  | a :: tl, h => by
    rw [List.any_cons] at h
    have h1 : (a.1 == k) = false := by
      cases hcase : (a.1 == k)
      · rfl
      · rw [hcase] at h
        simp at h
    rw [List.cons_append, List.find?_cons_of_neg _ (by simp [h1])]
    apply find_append_single_self k v tl
    cases hcase : tl.any (fun p => p.1 == k)
    · rfl
    · rw [hcase] at h
      simp at h

/-- Appending a fresh row of key k leaves lookups of other keys
unchanged. -/
theorem find_append_single_other {B : Type} (k q : String) (v : B) (hne : q ≠ k) :
    ∀ t : List (String × B),
      (t ++ [(k, v)]).find? (fun p => p.1 == q) = t.find? (fun p => p.1 == q)
  | [] => by
    have h1 : (((k, v) : String × B).1 == q) = false := by
      simp only [beq_eq_false_iff_ne]
      exact fun h => hne h.symm
    simp [List.find?_singleton, h1]
  | a :: tl => by
    by_cases haq : (a.1 == q) = true
    · rw [List.cons_append, List.find?_cons_of_pos _ (by exact haq),
        List.find?_cons_of_pos _ (by exact haq)]
    · rw [List.cons_append, List.find?_cons_of_neg _ (by exact haq),
        List.find?_cons_of_neg _ (by exact haq)]
      exact find_append_single_other k q v hne tl

/-- Insert-or-replace semantics of storeKV, seen through lookupKV. -/
theorem lookupKV_storeKV {B : Type} (t : List (String × B)) (k q : String)
    (v : B) :
    lookupKV (storeKV t k v) q = if q = k then some v else lookupKV t q := by
  unfold storeKV lookupKV
  split
  · rename_i hany
    by_cases hq : q = k
    · subst hq
      rw [if_pos rfl, find_replace_self q v t hany]
      rfl
    · rw [if_neg hq, find_replace_other k q v hq t]
  · rename_i hany
    have hany2 : t.any (fun p => p.1 == k) = false := by
      cases hcase : t.any (fun p => p.1 == k)
      · rfl
      · exact absurd hcase hany
    by_cases hq : q = k
    · subst hq
      rw [if_pos rfl, find_append_single_self q v t hany2]
      rfl
    · rw [if_neg hq, find_append_single_other k q v hq t]

/-- A fold of stores over rows not holding key q leaves the key-q
lookup unchanged. -/
theorem lookupKV_foldStore_notmem {B : Type} (g : String × B → B) (q : String) :
    ∀ (rows t : List (String × B)), q ∉ rows.map Prod.fst →
      lookupKV (rows.foldl (fun acc p => storeKV acc p.1 (g p)) t) q
        = lookupKV t q
  | [], _, _ => rfl
  | p :: rest, t, hq => by
    rw [List.map_cons, List.mem_cons, not_or] at hq
    rw [List.foldl_cons,
      lookupKV_foldStore_notmem g q rest (storeKV t p.1 (g p)) hq.2,
      lookupKV_storeKV, if_neg hq.1]

/-- A fold of stores over rows with duplicate-free keys makes the
lookup of a stored key find the stored value. -/
theorem lookupKV_foldStore_mem {B : Type} (g : String × B → B) :
    ∀ (rows t : List (String × B)) (k : String) (v : B),
      (rows.map Prod.fst).Nodup → (k, v) ∈ rows →
      lookupKV (rows.foldl (fun acc p => storeKV acc p.1 (g p)) t) k
        = some (g (k, v))
  | [], _, _, _, _, hmem => by cases hmem
  | p :: rest, t, k, v, hnd, hmem => by
    rw [List.map_cons, List.nodup_cons] at hnd
    cases hmem with
    | head =>
      rw [List.foldl_cons,
        lookupKV_foldStore_notmem g k rest _ hnd.1,
        lookupKV_storeKV, if_pos rfl]
    | tail _ hmem =>
      rw [List.foldl_cons]
      exact lookupKV_foldStore_mem g rest (storeKV t p.1 (g p)) k v hnd.2 hmem

/-- A successful lookup exhibits the row as a member of the table. -/
theorem lookupKV_mem {B : Type} (t : List (String × B)) (k : String) (w : B)
    (h : lookupKV t k = some w) : (k, w) ∈ t := by
  unfold lookupKV at h
  cases hf : t.find? (fun p => p.1 == k) with
  | none => rw [hf] at h; cases h
  | some p =>
    rw [hf] at h
    injection h with h2
    have hp := List.find?_some hf
    have hmem := List.mem_of_find?_eq_some hf
    have hpk : p = (k, w) := by
      cases p with
      | mk p1 p2 =>
        simp only [beq_iff_eq] at hp
        simp only at h2
        rw [hp, h2]
    rwa [hpk] at hmem

/-- C3: for every store with duplicate-free keys and every key stored
in it, optimize completes, and afterwards the key is still present and
get returns exactly the value it held before: the re-encode under the
new dictionary preserves all decoded values. -/
theorem optimize_preserves {B : Type} (db : Database B)
    (train : List B → B) (mkComp : B → Compressor B)
    (hnd : (db.table.map Prod.fst).Nodup)
    (key : String) (v : B) (hget : db.getItem key = .ok v) :
    (∃ db2, db.optimize train mkComp = .ok db2) ∧
    (∀ db2, db.optimize train mkComp = .ok db2 → db2.getItem key = .ok v) := by
  unfold Database.getItem at hget
  by_cases hcx : db.cx = true
  case neg =>
    rw [if_neg hcx] at hget
    cases hget
  rw [if_pos hcx] at hget
  cases hlook : lookupKV db.table key with
  | none =>
    rw [hlook] at hget
    cases hget
  | some w =>
    rw [hlook] at hget
    injection hget with hv
    constructor
    · cases hopt : db.optimize train mkComp with
      | error e =>
        unfold Database.optimize at hopt
        rw [if_pos hcx] at hopt
        cases hopt
      | ok db2 => exact ⟨db2, rfl⟩
    · intro db2 hopt
      unfold Database.optimize at hopt
      rw [if_pos hcx] at hopt
      injection hopt with hdb2
      subst hdb2
      unfold Database.getItem
      rw [if_pos hcx]
      have hmemrows : (key, db.compressor.decompress w)
          ∈ db.table.map (fun p => (p.1, db.compressor.decompress p.2)) :=
        List.mem_map_of_mem (fun p => (p.1, db.compressor.decompress p.2))
          (lookupKV_mem db.table key w hlook)
      have hndrows : ((db.table.map
          (fun p => (p.1, db.compressor.decompress p.2))).map Prod.fst).Nodup := by
        rw [List.map_map]
        exact hnd
      rw [lookupKV_foldStore_mem _ _ _ key (db.compressor.decompress w)
        hndrows hmemrows]
      simp only [Compressor.round_trip]
      rw [hv]

/-- A sample open one-record store under the identity compressor,
used to instantiate theorems at concrete inputs. -/
def sampleDb : Database Val :=
  { cx := true, table := [("a", Val.vInt 1)], zstdDict := none,
    compressor := idCompressor }

/-- Witness for C3: a one-record open store under the identity
compressor; optimize with a trivial trainer preserves the record. -/
theorem optimize_preserves_witness :
    (∃ db2, sampleDb.optimize (fun _ => Val.vNone) (fun _ => idCompressor)
      = .ok db2) ∧
    (∀ db2, sampleDb.optimize (fun _ => Val.vNone) (fun _ => idCompressor)
        = .ok db2 →
      db2.getItem "a" = .ok (Val.vInt 1)) :=
  optimize_preserves sampleDb (fun _ => Val.vNone) (fun _ => idCompressor)
    (by simp [sampleDb]) "a" (Val.vInt 1) rfl

/-- A successful SELECT returns a row of the table holding the
requested key. -/
theorem dbSelect_some_spec {B : Type} (t : List (CacheRow B)) (key : String)
    (ttl : Option ℚ) (now : ℚ) (row : CacheRow B)
    (h : dbSelect t key ttl now = some row) : row ∈ t ∧ row.key = key := by
  unfold dbSelect at h
  by_cases htr : ttlTruthy ttl = true
  · rw [if_pos htr] at h
    refine ⟨List.mem_of_find?_eq_some h, ?_⟩
    have hp := List.find?_some h
    simp only [Bool.and_eq_true, beq_iff_eq, decide_eq_true_eq] at hp
    exact hp.1
  · rw [if_neg htr] at h
    refine ⟨List.mem_of_find?_eq_some h, ?_⟩
    have hp := List.find?_some h
    simp only [beq_iff_eq] at hp
    exact hp

/-- The SELECT on a key held by no row fails, with or without a
ttl. -/
theorem dbSelect_absent {B : Type} (t : List (CacheRow B)) (key : String)
    (ttl : Option ℚ) (now : ℚ) (habs : ∀ q ∈ t, q.key ≠ key) :
    dbSelect t key ttl now = none := by
  unfold dbSelect
  by_cases htr : ttlTruthy ttl = true
  · rw [if_pos htr, List.find?_eq_none]
    intro x hx
    simp only [Bool.and_eq_true, beq_iff_eq, decide_eq_true_eq, not_and]
    intro hk
    exact absurd hk (habs x hx)
  · rw [if_neg htr, List.find?_eq_none]
    intro x hx
    simp only [beq_iff_eq]
    exact habs x hx

/-- A SELECT that finds nothing at time now finds nothing at any later
time: the freshness window only shrinks. -/
theorem dbSelect_none_mono {B : Type} (t : List (CacheRow B)) (key : String)
    (ttl : Option ℚ) (now now2 : ℚ) (hle : now ≤ now2)
    (h : dbSelect t key ttl now = none) :
    dbSelect t key ttl now2 = none := by
  unfold dbSelect at h ⊢
  by_cases htr : ttlTruthy ttl = true
  · rw [if_pos htr] at h ⊢
    rw [List.find?_eq_none] at h ⊢
    intro x hx hpx
    apply h x hx
    simp only [Bool.and_eq_true, beq_iff_eq, decide_eq_true_eq] at hpx ⊢
    refine ⟨hpx.1, ?_⟩
    have := hpx.2
    linarith
  · rw [if_neg htr] at h ⊢
    exact h

/-- The access-bookkeeping UPDATE commutes with the SELECT: selecting
on the touched table finds the touched image of the original
selection. -/
theorem dbSelect_touchRow {B : Type} (t : List (CacheRow B)) (key : String)
    (ttl : Option ℚ) (now now2 : ℚ) :
    dbSelect (touchRow t key now) key ttl now2
      = (dbSelect t key ttl now2).map
          (fun r => if r.key == key then
            { r with access_count := r.access_count + 1, last_access := now }
            else r) := by
  unfold dbSelect touchRow
  by_cases htr : ttlTruthy ttl = true
  · rw [if_pos htr, if_pos htr, List.find?_map]
    have hpg : ((fun r : CacheRow B =>
          r.key == key && decide (now2 - ttl.getD 0 < r.created_at)) ∘
        (fun r : CacheRow B => if r.key == key then
          { r with access_count := r.access_count + 1, last_access := now }
          else r))
        = (fun r : CacheRow B =>
          r.key == key && decide (now2 - ttl.getD 0 < r.created_at)) := by
      funext r
      by_cases hk : (r.key == key) = true <;> simp [Function.comp, hk]
    rw [hpg]
  · rw [if_neg htr, if_neg htr, List.find?_map]
    have hpg : ((fun r : CacheRow B => r.key == key) ∘
        (fun r : CacheRow B => if r.key == key then
          { r with access_count := r.access_count + 1, last_access := now }
          else r))
        = (fun r : CacheRow B => r.key == key) := by
      funext r
      by_cases hk : (r.key == key) = true <;> simp [Function.comp, hk]
    rw [hpg]

/-- The get step only touches access bookkeeping: connection flag,
keys, values and creation times are unchanged. -/
theorem cacheDbGet_preserves {B : Type} (ser : Serializer B)
    (comp : Compressor B) (d d1 : CacheDb B) (key : String)
    (ttl : Option ℚ) (now : ℚ) (x : Val)
    (h : cacheDbGet ser comp d key ttl now = .ok (x, d1)) :
    d1.cx = d.cx ∧
    d1.table.map (fun r => (r.key, r.value, r.created_at))
      = d.table.map (fun r => (r.key, r.value, r.created_at)) := by
  unfold cacheDbGet at h
  by_cases hcx : d.cx = true
  swap
  · rw [if_neg hcx] at h
    cases h
  rw [if_pos hcx] at h
  cases hsel : dbSelect d.table key ttl now with
  | none =>
    rw [hsel] at h
    injection h with h2
    injection h2 with hx hd
    subst hd
    exact ⟨rfl, rfl⟩
  | some row =>
    rw [hsel] at h
    injection h with h2
    injection h2 with hx hd
    subst hd
    refine ⟨rfl, ?_⟩
    show (touchRow d.table key now).map _ = _
    unfold touchRow
    rw [List.map_map]
    apply List.map_congr_left
    intro r _
    by_cases hk : (r.key == key) = true <;> simp [Function.comp, hk]

/-- A get that produced the None sentinel produces it again at any
later time: the touch update changed neither values nor creation
times. -/
theorem cacheDbGet_vNone_again {B : Type} (ser : Serializer B)
    (comp : Compressor B) (d d1 : CacheDb B) (key : String)
    (ttl : Option ℚ) (now now2 : ℚ)
    (hnd : (d.table.map CacheRow.key).Nodup) (hle : now ≤ now2)
    (h : cacheDbGet ser comp d key ttl now = .ok (Val.vNone, d1)) :
    ∃ d2, cacheDbGet ser comp d1 key ttl now2 = .ok (Val.vNone, d2) := by
  unfold cacheDbGet at h
  by_cases hcx : d.cx = true
  swap
  · rw [if_neg hcx] at h
    cases h
  rw [if_pos hcx] at h
  cases hsel : dbSelect d.table key ttl now with
  | none =>
    rw [hsel] at h
    injection h with h2
    injection h2 with hx hd
    subst hd
    refine ⟨d, ?_⟩
    unfold cacheDbGet
    rw [if_pos hcx, dbSelect_none_mono d.table key ttl now now2 hle hsel]
  | some row =>
    rw [hsel] at h
    injection h with h2
    injection h2 with hx hd
    subst hd
    obtain ⟨hrow_mem, hrow_key⟩ := dbSelect_some_spec d.table key ttl now row hsel
    unfold cacheDbGet
    simp only []
    rw [if_pos hcx, dbSelect_touchRow]
    cases hsel2 : dbSelect d.table key ttl now2 with
    | none => exact ⟨_, rfl⟩
    | some r2 =>
      obtain ⟨hr2_mem, hr2_key⟩ := dbSelect_some_spec d.table key ttl now2 r2 hsel2
      have heq : r2 = row :=
        List.inj_on_of_nodup_map hnd hr2_mem hrow_mem
          (by rw [hr2_key, hrow_key])
      subst heq
      simp only [Option.map_some']
      have hval : ((if r2.key == key then
          { r2 with access_count := r2.access_count + 1, last_access := now }
          else r2) : CacheRow B).value = r2.value := by
        by_cases hk : (r2.key == key) = true <;> simp [hk]
      rw [hval, hx]
      exact ⟨_, rfl⟩

/-- C7: when both tiers miss (the disk tier reports the None sentinel)
and the wrapped computation raises, the exception propagates unchanged,
the memory tier is untouched, the disk tier gains no entry (keys,
values and creation times are unchanged; only access bookkeeping may
move), and a retried call at any later time re-executes the computation
and raises the same exception. -/
theorem exception_not_cached {M B K : Type} (digest : KeyData → K)
    (keyStr : K → String) (mt : MemTier M) (ser : Serializer B)
    (comp : Compressor B) (cfg : SqlCacheCfg)
    (f : List Val → List (String × Val) → Except Val Val)
    (func_name : String) (now now2 : ℚ) (mem : M) (d d1 : CacheDb B)
    (args : List Val) (kwargs : List (String × Val)) (e : Val) (key : String)
    (hkey : keyStr (generate_key digest func_name args kwargs) = key)
    (hnd : (d.table.map CacheRow.key).Nodup)
    (hmem : mt.lookup mem key = none)
    (hdb : cacheDbGet ser comp d key cfg.ttl now = .ok (Val.vNone, d1))
    (hf : f args kwargs = .error e)
    (hle : now ≤ now2) :
    wrapper digest keyStr mt ser comp cfg f func_name now mem d args kwargs
      = ⟨.funcExc e, mem, d1, true⟩ ∧
    d1.cx = d.cx ∧
    d1.table.map (fun r => (r.key, r.value, r.created_at))
      = d.table.map (fun r => (r.key, r.value, r.created_at)) ∧
    (wrapper digest keyStr mt ser comp cfg f func_name now2 mem d1 args
      kwargs).executed = true ∧
    (wrapper digest keyStr mt ser comp cfg f func_name now2 mem d1 args
      kwargs).outcome = .funcExc e := by
  have hpres := cacheDbGet_preserves ser comp d d1 key cfg.ttl now Val.vNone hdb
  obtain ⟨d2, hdb2⟩ :=
    cacheDbGet_vNone_again ser comp d d1 key cfg.ttl now now2 hnd hle hdb
  have hw1 : wrapper digest keyStr mt ser comp cfg f func_name now mem d args
      kwargs = ⟨.funcExc e, mem, d1, true⟩ := by
    simp only [wrapper, hkey, hmem, hdb, hf]
    simp
  have hw2 : wrapper digest keyStr mt ser comp cfg f func_name now2 mem d1
      args kwargs = ⟨.funcExc e, mem, d2, true⟩ := by
    simp only [wrapper, hkey, hmem, hdb2, hf]
    simp
  exact ⟨hw1, hpres.1, hpres.2, by rw [hw2], by rw [hw2]⟩

/-- Witness for C7: a computation that always raises, called on an
open empty cache with an empty memory tier, propagates the exception,
caches nothing, and re-raises on retry. -/
theorem exception_not_cached_witness :
    wrapper (fun _ : KeyData => "k") id listMemTier idSerializer idCompressor
      { max_size := 10, ttl := some 10, cache_type := "ttl" }
      (fun _ _ => .error (Val.vStr "boom")) "f" 0 []
      ({ cx := true, table := [] } : CacheDb Val) [] []
      = ⟨.funcExc (Val.vStr "boom"), [], { cx := true, table := [] }, true⟩ ∧
    (wrapper (fun _ : KeyData => "k") id listMemTier idSerializer idCompressor
      { max_size := 10, ttl := some 10, cache_type := "ttl" }
      (fun _ _ => .error (Val.vStr "boom")) "f" 1 []
      ({ cx := true, table := [] } : CacheDb Val) [] []).executed = true := by
  have h := exception_not_cached (fun _ : KeyData => "k") id listMemTier
    idSerializer idCompressor
    { max_size := 10, ttl := some 10, cache_type := "ttl" }
    (fun _ _ => .error (Val.vStr "boom")) "f" 0 1 []
    ({ cx := true, table := [] } : CacheDb Val)
    ({ cx := true, table := [] } : CacheDb Val) [] [] (Val.vStr "boom") "k"
    rfl (by simp) rfl rfl rfl (by norm_num)
  exact ⟨h.1, h.2.2.2.1⟩

/-- The freshly written row is a member of the table after the
insert-or-replace. -/
theorem mem_storeRow_self {B : Type} (t : List (CacheRow B)) (key : String)
    (v : B) (now : ℚ) :
    ({ key := key, value := v, created_at := now, access_count := 1,
       last_access := now } : CacheRow B) ∈ storeRow t key v now := by
  unfold storeRow
  split
  · rename_i hany
    rw [List.any_eq_true] at hany
    obtain ⟨r, hr, hrk⟩ := hany
    rw [List.mem_map]
    exact ⟨r, hr, by rw [if_pos hrk]⟩
  · exact List.mem_append_right _ (List.mem_singleton.mpr rfl)

/-- C10: the disk-tier get returns the same None sentinel for a
missing key as for a stored row whose decoded value is None, and the
engine treats that sentinel as a miss: on a memory-tier miss, even
though a fresh disk row for the key exists and decodes to None, the
wrapped function is executed again, its None result is returned, and a
fresh disk entry (created at the call time) is rewritten for that
key. -/
theorem none_value_treated_as_miss {M B K : Type} (digest : KeyData → K)
    (keyStr : K → String) (mt : MemTier M) (ser : Serializer B)
    (comp : Compressor B) (cfg : SqlCacheCfg)
    (f : List Val → List (String × Val) → Except Val Val)
    (func_name : String) (now : ℚ) (mem : M) (d : CacheDb B)
    (args : List Val) (kwargs : List (String × Val))
    (key key2 : String) (r : CacheRow B) (τ : ℚ)
    (hkey : keyStr (generate_key digest func_name args kwargs) = key)
    (hnd : (d.table.map CacheRow.key).Nodup)
    (hcx : d.cx = true)
    (hr : r ∈ d.table) (hrkey : r.key = key)
    (hdec : ser.unserialize (comp.decompress r.value) = Val.vNone)
    (habs : ∀ q ∈ d.table, q.key ≠ key2)
    (hmem : mt.lookup mem key = none)
    (hf : f args kwargs = .ok Val.vNone)
    (hclean : cleanupAction cfg = .expired τ) (hτ : 0 < τ) :
    cacheDbGet ser comp d key2 cfg.ttl now = .ok (Val.vNone, d) ∧
    (∃ d1, cacheDbGet ser comp d key cfg.ttl now = .ok (Val.vNone, d1)) ∧
    (wrapper digest keyStr mt ser comp cfg f func_name now mem d args
      kwargs).executed = true ∧
    (wrapper digest keyStr mt ser comp cfg f func_name now mem d args
      kwargs).outcome = .value Val.vNone ∧
    (∃ row, row ∈ (wrapper digest keyStr mt ser comp cfg f func_name now mem
        d args kwargs).db.table ∧
      row.key = key ∧ row.created_at = now ∧
      row.value = comp.compress (ser.serialize Val.vNone)) := by
  have h1 : cacheDbGet ser comp d key2 cfg.ttl now = .ok (Val.vNone, d) := by
    unfold cacheDbGet
    rw [if_pos hcx, dbSelect_absent d.table key2 cfg.ttl now habs]
  have h2 : ∃ d1, cacheDbGet ser comp d key cfg.ttl now
      = .ok (Val.vNone, d1) := by
    unfold cacheDbGet
    rw [if_pos hcx]
    cases hsel : dbSelect d.table key cfg.ttl now with
    | none => exact ⟨d, rfl⟩
    | some r2 =>
      obtain ⟨hr2mem, hr2key⟩ :=
        dbSelect_some_spec d.table key cfg.ttl now r2 hsel
      have heq : r2 = r :=
        List.inj_on_of_nodup_map hnd hr2mem hr (by rw [hr2key, hrkey])
      subst heq
      simp only [hdec]
      exact ⟨_, rfl⟩
  obtain ⟨d1, hdb⟩ := h2
  have hd1cx : d1.cx = true := by
    rw [(cacheDbGet_preserves ser comp d d1 key cfg.ttl now Val.vNone hdb).1]
    exact hcx
  have hset : cacheDbSet ser comp d1 key Val.vNone now
      = .ok ⟨d1.cx,
             storeRow d1.table key (comp.compress (ser.serialize Val.vNone))
               now⟩ := by
    unfold cacheDbSet
    rw [if_pos hd1cx]
  have hw : wrapper digest keyStr mt ser comp cfg f func_name now mem d args
      kwargs
      = ⟨.value Val.vNone, mt.insert mem key Val.vNone,
         ⟨d1.cx, applyCleanup cfg (storeRow d1.table key
           (comp.compress (ser.serialize Val.vNone)) now) now⟩, true⟩ := by
    simp only [wrapper, hkey, hmem, hdb, hf, hset]
    simp
  refine ⟨h1, ⟨d1, hdb⟩, ?_, ?_, ?_⟩
  · rw [hw]
  · rw [hw]
  · rw [hw]
    show ∃ row, row ∈ applyCleanup cfg (storeRow d1.table key
      (comp.compress (ser.serialize Val.vNone)) now) now ∧ _
    simp only [applyCleanup, hclean]
    refine ⟨⟨key, comp.compress (ser.serialize Val.vNone), now, 1, now⟩,
      ?_, rfl, rfl, rfl⟩
    unfold cleanup_expired
    rw [List.mem_filter]
    refine ⟨mem_storeRow_self d1.table key
      (comp.compress (ser.serialize Val.vNone)) now, ?_⟩
    simp only [Bool.not_eq_true', decide_eq_false_iff_not, not_lt]
    linarith

/-- A fresh cache row whose value is the None sentinel, used to
instantiate theorems at concrete inputs. -/
def noneRow : CacheRow Val :=
  { key := "k", value := Val.vNone, created_at := 0,
    access_count := 1, last_access := 0 }

/-- Witness for C10: the identity serializer and compressor, a
one-row disk table whose row stores None, an empty memory tier, and the
constant-None computation: the call executes the function and returns
None. -/
theorem none_value_treated_as_miss_witness :
    cacheDbGet idSerializer idCompressor
      ({ cx := true, table := [noneRow] } : CacheDb Val) "x" (some 10) 0
      = .ok (Val.vNone, { cx := true, table := [noneRow] }) ∧
    (wrapper (fun _ : KeyData => "k") id listMemTier idSerializer
      idCompressor { max_size := 10, ttl := some 10, cache_type := "ttl" }
      (fun _ _ => .ok Val.vNone) "f" 0 []
      ({ cx := true, table := [noneRow] } : CacheDb Val) [] []).executed
      = true := by
  have h := none_value_treated_as_miss (fun _ : KeyData => "k") id
    listMemTier idSerializer idCompressor
    { max_size := 10, ttl := some 10, cache_type := "ttl" }
    (fun _ _ => .ok Val.vNone) "f" 0 []
    ({ cx := true, table := [noneRow] } : CacheDb Val) [] [] "k" "x"
    noneRow 10 rfl (by simp) rfl (by simp) rfl rfl
    (by intro q hq; simp at hq; subst hq; simp [noneRow]) rfl rfl rfl
    (by norm_num)
  exact ⟨h.1, h.2.2.1⟩

/-- C2: after close() the engine has no reconnection logic: a call
through the decorated function whose key misses the memory tier raises
SqlCacheError (wrapping the closed-handle error) instead of
transparently re-opening the store; the handle stays closed and the
wrapped function is not executed. -/
theorem closed_engine_call_fails :
    wrapper (fun _ : KeyData => "k") id listMemTier idSerializer
      idCompressor { max_size := 1000, ttl := some 10, cache_type := "ttl" }
      (fun _ _ => .ok (Val.vInt 10)) "f" 0 []
      (cacheClose ({ cx := true, table := [] } : CacheDb Val))
      [Val.vInt 5] []
      = ⟨.sqlCacheError, [], { cx := false, table := [] }, false⟩ := rfl

end Shelvez
